import Mathlib

/-!
Shallow embedding of the due-date-driven column automation engine of the
visual-task-quest Kanban application, together with proofs about its
specification claims.

Embedded code:
- `src/src/hooks/useAutomation.tsx` (`checkAndMoveOverdueTasks`): overdue
  detection, rule matching, the batch move and its toast/reload outcome;
- `src/src/pages/Dashboard.tsx` (`handleDragEnd`, `moveTask`,
  `handleDateChangeConfirm`, `handleDateChangeCancel`): the drag-triggered
  override flow;
- `src/supabase/functions/send-notifications/index.ts`: the scheduled
  notification dispatcher.

JavaScript string comparison (`<=` / `<` on ISO date strings) is modelled by
an explicit lexicographic comparison on the character lists of Lean strings,
which agrees with the JS code-unit order on ASCII date strings.  JavaScript
truthiness of a nullable string (`!s`) is modelled by `jsTruthyStr`, which is
false exactly on `none` and on the empty string.
-/

namespace VTQ

/-- Lexicographic strict order on character lists, by code point, matching
JavaScript string comparison on ASCII strings. -/
def charListLt : List Char → List Char → Bool
  | [], [] => false
  | [], _ :: _ => true
  | _ :: _, [] => false
  | a :: as, b :: bs =>
      a.val.toNat < b.val.toNat || (a.val.toNat == b.val.toNat && charListLt as bs)

/-- JavaScript `a < b` on strings. -/
def strLt (a b : String) : Bool := charListLt a.data b.data

/-- JavaScript `a <= b` on strings. -/
def strLe (a b : String) : Bool := strLt a b || a == b

/-- JavaScript truthiness of a nullable string value: `null` and `""` are
falsy, every other string is truthy. -/
def jsTruthyStr : Option String → Bool
  | none => false
  | some s => !(s == "")

/-- Task fields used by `useAutomation.tsx` (its local `Task` type). -/
structure Task where
  id : String
  column_id : String
  due_date : Option String
  deriving Repr, DecidableEq

/-- Automation rule fields used by `useAutomation.tsx` (its local
`AutomationRule` type).  The loaded rule list is fetched with an
`enabled = true` filter, so every in-memory rule is enabled. -/
structure AutomationRule where
  id : String
  source_column_id : String
  target_column_id : String
  enabled : Bool
  deriving Repr, DecidableEq

/-- The overdue test of `checkAndMoveOverdueTasks`
(`if (!task.due_date) return false; return task.due_date <= today;`). -/
def isOverdue (today : String) (t : Task) : Bool :=
  jsTruthyStr t.due_date && strLe (t.due_date.getD "") today

/-- `overdueTasks` from `checkAndMoveOverdueTasks`: the tasks whose due date
is today or earlier. -/
def overdueTasks (tasks : List Task) (today : String) : List Task :=
  tasks.filter (isOverdue today)

/-- The rule lookup of `checkAndMoveOverdueTasks`:
`rulesRef.current.find((r) => r.source_column_id === task.column_id)`. -/
def findRule (rules : List AutomationRule) (colId : String) : Option AutomationRule :=
  rules.find? (fun r => r.source_column_id == colId)

/-- `tasksToMove` from `checkAndMoveOverdueTasks`: for each overdue task, in
task-list order, the pair of its id and the target column of the first rule
whose source column is the task's current column; tasks with no matching rule
contribute nothing. -/
def tasksToMove (tasks : List Task) (rules : List AutomationRule) (today : String) :
    List (String × String) :=
  (overdueTasks tasks today).filterMap
    (fun t => (findRule rules t.column_id).map (fun r => (t.id, r.target_column_id)))

/-- Effect of a batch of `{taskId, targetColumnId}` updates on one task row:
if the move list has an entry for the row's id, the row takes that entry's
target column (the Store update `update({column_id}).eq("id", taskId)`). -/
def moveRow (moves : List (String × String)) (t : Task) : Task :=
  match moves.find? (fun p => p.1 == t.id) with
  | some p => { t with column_id := p.2 }
  | none => t

/-- Effect of committing a batch of `{taskId, targetColumnId}` updates on the
whole task list. -/
def applyMoves (tasks : List Task) (moves : List (String × String)) : List Task :=
  tasks.map (moveRow moves)

/-- Task row fields of the Dashboard page relevant to moves: the automation
engine and the drag flow write `column_id`, `position` and (in the override
confirm exit) `due_date`; `title` stands for the remaining untouched fields. -/
structure DbTask where
  id : String
  column_id : String
  due_date : Option String
  position : Nat
  title : String
  deriving Repr, DecidableEq

/-- The automation engine's row update
(`update({ column_id: targetColumnId }).eq("id", taskId)`): only `column_id`
is written. -/
def updateTaskColumn (db : List DbTask) (taskId target : String) : List DbTask :=
  db.map (fun t => if t.id == taskId then { t with column_id := target } else t)

/-- The committed effect of the batch of concurrent row updates issued by the
Batch Mover: the updates whose result carries no error land; the others leave
their row as it was.  `oks` lists each update's success, positionally. -/
def applyBatchResults (db : List DbTask) (moves : List (String × String))
    (oks : List Bool) : List DbTask :=
  (moves.zip oks).foldl
    (fun d p => if p.2 then updateTaskColumn d p.1.1 p.1.2 else d) db

/-- Observable outcome of one Batch Mover run: the task table, the number of
aggregated success toasts surfaced, and whether the reload callback fired. -/
structure BatchOutcome where
  db : List DbTask
  successToasts : Nat
  reloadFired : Bool
  deriving Repr, DecidableEq

/-- The Batch Mover tail of `checkAndMoveOverdueTasks`: issue the updates,
collect the failures, and only when there are none surface one success toast
and fire `onTasksUpdated`; committed updates are never rolled back. -/
def batchMove (db : List DbTask) (moves : List (String × String))
    (oks : List Bool) : BatchOutcome :=
  if 0 < moves.length then
    let db2 := applyBatchResults db moves oks
    if (oks.filter (fun b => !b)).length = 0 ∧ 0 < moves.length then
      ⟨db2, 1, true⟩
    else ⟨db2, 0, false⟩
  else ⟨db, 0, false⟩

/-- `moveTask` from `Dashboard.tsx`: update `column_id` and `position`, and
`due_date` only when a truthy `newDueDate` is supplied. -/
def moveTaskUpdate (db : List DbTask) (taskId target : String) (pos : Nat)
    (newDueDate : Option String) : List DbTask :=
  db.map (fun t =>
    if t.id == taskId then
      (if jsTruthyStr newDueDate then
        { t with column_id := target, position := pos, due_date := newDueDate }
      else { t with column_id := target, position := pos })
    else t)

/-- The override-flow trigger test of `handleDragEnd` in `Dashboard.tsx`: the
dragged task has a truthy due date, the drop target is a different column,
some loaded rule's `source_column_id` equals the drop target column, and the
due date is strictly before today. -/
def overrideFlowTriggered (rules : List AutomationRule) (taskColumnId : String)
    (taskDueDate : Option String) (targetColumnId today : String) : Bool :=
  jsTruthyStr taskDueDate
    && !(targetColumnId == taskColumnId)
    && rules.any (fun r => r.source_column_id == targetColumnId)
    && strLt (taskDueDate.getD "") today

/-- The trigger condition as the specification claim words it: an overdue
task dragged to a different column triggers the flow exactly when the drop
target is the `target_column_id` of an enabled rule whose `source_column_id`
is the task's current column.  Stated for comparison with
`overrideFlowTriggered`, the condition the code computes. -/
def claimOverrideTrigger (rules : List AutomationRule) (taskColumnId : String)
    (taskDueDate : Option String) (targetColumnId today : String) : Bool :=
  jsTruthyStr taskDueDate
    && !(targetColumnId == taskColumnId)
    && strLt (taskDueDate.getD "") today
    && rules.any (fun r =>
        r.enabled && r.source_column_id == taskColumnId
          && r.target_column_id == targetColumnId)

/-- The ephemeral Pending Move state of `Dashboard.tsx`. -/
structure PendingMove where
  taskId : String
  targetColumnId : String
  targetPosition : Nat
  deriving Repr, DecidableEq

/-- The three exits of the override dialog. -/
inductive OverrideExit where
  | confirm (newDate : String)
  | skip
  | cancel
  deriving Repr, DecidableEq

/-- Page state threaded through the override flow: the task table, the
Pending Move, and whether the date-change dialog is open. -/
structure UIState where
  db : List DbTask
  pendingMove : Option PendingMove
  dialogOpen : Bool
  deriving Repr, DecidableEq

/-- Modelled from the spec: the page-level handler of the `Skip and Move`
exit is absent from the sources (only a `DateChangeDialog` variant exposing
an `onSkip` callback is present); per the spec this exit commits the pending
move with the due date left unchanged and clears the Pending Move state. -/
def skipExitHandler (s : UIState) : UIState :=
  match s.pendingMove with
  | none => s
  | some pm =>
      ⟨moveTaskUpdate s.db pm.taskId pm.targetColumnId pm.targetPosition none,
        none, false⟩

/-- Resolution of an intercepted move by the override dialog.  `confirm` is
`handleDateChangeConfirm` (commit the move with the chosen date and clear the
pending state; it returns early when no move is pending), `cancel` is
`handleDateChangeCancel` (clear the pending state only), and `skip` is the
spec-modelled `skipExitHandler`. -/
def resolveOverride (s : UIState) (ex : OverrideExit) : UIState :=
  match ex with
  | .confirm d =>
      match s.pendingMove with
      | none => s
      | some pm =>
          ⟨moveTaskUpdate s.db pm.taskId pm.targetColumnId pm.targetPosition (some d),
            none, false⟩
  | .skip => skipExitHandler s
  | .cancel => { s with pendingMove := none, dialogOpen := false }

/-- Task row fields of the notification dispatcher
(`send-notifications/index.ts`). -/
structure NotifTask where
  id : String
  title : String
  description : Option String
  due_date : Option String
  notification_at : Option String
  notification_sent : Bool
  column_id : String
  deriving Repr, DecidableEq

/-- Column row fields used by the dispatcher's join. -/
structure ColumnRow where
  id : String
  board_id : String
  title : String
  deriving Repr, DecidableEq

/-- Board row fields used by the dispatcher's join. -/
structure BoardRow where
  id : String
  user_id : String
  title : String
  deriving Repr, DecidableEq

/-- Profile row fields used by the dispatcher. -/
structure ProfileRow where
  id : String
  notification_url : Option String
  deriving Repr, DecidableEq

/-- The store tables the dispatcher reads. -/
structure NotifDB where
  tasks : List NotifTask
  cols : List ColumnRow
  boards : List BoardRow
  profiles : List ProfileRow
  deriving Repr, DecidableEq

/-- The task, column, board chain of the dispatcher's query (inner joins:
a task whose chain does not resolve is not returned). -/
def resolveChain (db : NotifDB) (t : NotifTask) : Option (ColumnRow × BoardRow) :=
  match db.cols.find? (fun c => c.id == t.column_id) with
  | none => none
  | some c =>
      match db.boards.find? (fun b => b.id == c.board_id) with
      | none => none
      | some b => some (c, b)

/-- The dispatcher query: tasks with `notification_sent = false`, a non-null
`notification_at` at or before `now`, and a resolvable column/board chain. -/
def notifDue (db : NotifDB) (now : String) : List NotifTask :=
  db.tasks.filter (fun t =>
    !t.notification_sent
      && (match t.notification_at with
          | none => false
          | some na => strLe na now)
      && (resolveChain db t).isSome)

/-- The owner's webhook URL: the profile row of the board's user, then its
`notification_url` field (the code tests `!profile?.notification_url`). -/
def webhookFor (db : NotifDB) (t : NotifTask) : Option String :=
  match resolveChain db t with
  | none => none
  | some cb =>
      match db.profiles.find? (fun p => p.id == cb.2.user_id) with
      | none => none
      | some p => p.notification_url

/-- The dispatcher's `update({ notification_sent: true }).eq('id', task.id)`. -/
def markSent (tasks : List NotifTask) (taskId : String) : List NotifTask :=
  tasks.map (fun t =>
    if t.id == taskId then { t with notification_sent := true } else t)

/-- One iteration of the dispatcher loop, threading the task table and the
sent counter: a falsy webhook URL marks the task sent and skips it; a POST
whose `fetch` resolved (any HTTP status) marks the task sent and increments
the counter; a POST whose `fetch` threw changes nothing.  `post t.id = true`
models a resolved `fetch`, `false` one that threw. -/
def dispatchStep (db : NotifDB) (post : String → Bool)
    (acc : List NotifTask × Nat) (t : NotifTask) : List NotifTask × Nat :=
  if !(jsTruthyStr (webhookFor db t)) then (markSent acc.1 t.id, acc.2)
  else if post t.id then (markSent acc.1 t.id, acc.2 + 1)
  else acc

/-- One invocation of the Scheduled Notification Dispatcher: fold the loop
over the queried due list, returning the final task table and `sentCount`. -/
def runDispatcher (db : NotifDB) (now : String) (post : String → Bool) :
    List NotifTask × Nat :=
  (notifDue db now).foldl (dispatchStep db post) (db.tasks, 0)

/-- Example dispatcher store with one due task whose owner has a webhook URL
configured; used to evaluate the dispatcher at concrete inputs. -/
def notifExampleDB : NotifDB :=
  ⟨[⟨"t1", "T", none, none, some "2024-01-01T00:00:00Z", false, "c1"⟩],
    [⟨"c1", "b1", "Col"⟩], [⟨"b1", "u1", "Board"⟩],
    [⟨"u1", some "https://example.com/hook"⟩]⟩

/-- Example dispatcher store identical to `notifExampleDB` except that the
owner has no webhook URL configured. -/
def notifExampleDBNoUrl : NotifDB :=
  ⟨[⟨"t1", "T", none, none, some "2024-01-01T00:00:00Z", false, "c1"⟩],
    [⟨"c1", "b1", "Col"⟩], [⟨"b1", "u1", "Board"⟩], [⟨"u1", none⟩]⟩

theorem isOverdue_eq_true_iff (today : String) (t : Task) (hwf : t.due_date ≠ some "") :
    isOverdue today t = true ↔ ∃ d, t.due_date = some d ∧ strLe d today = true := by
  cases h : t.due_date with
  | none => simp [isOverdue, jsTruthyStr, h]
  | some d =>
      have hd : d ≠ "" := by
        intro he
        exact hwf (by simpa [he] using h)
      simp [isOverdue, jsTruthyStr, h, hd]

/-- C1: For every task list and reference date `today`, the overdue set
computed by the automation evaluation contains exactly the tasks of the list
with a non-null due date that string-compares less than or equal to `today`
(due dates, being ISO `YYYY-MM-DD` strings, are never the empty string). -/
theorem overdue_set_exact (tasks : List Task) (today : String)
    (hwf : ∀ t ∈ tasks, t.due_date ≠ some "") :
    ∀ t, t ∈ overdueTasks tasks today ↔
      t ∈ tasks ∧ ∃ d, t.due_date = some d ∧ strLe d today = true := by
  intro t
  constructor
  · intro h
    have hmem := (List.mem_filter.mp h).1
    have hov := (List.mem_filter.mp h).2
    exact ⟨hmem, (isOverdue_eq_true_iff today t (hwf t hmem)).mp hov⟩
  · rintro ⟨hmem, hd⟩
    exact List.mem_filter.mpr ⟨hmem, (isOverdue_eq_true_iff today t (hwf t hmem)).mpr hd⟩

/-- C1 witness: with `today = 2024-01-02`, a task due that same day is in the
overdue set and a task due the next day is not. -/
theorem overdue_set_exact_witness :
    (Task.mk "t1" "A" (some "2024-01-02") ∈
        overdueTasks [Task.mk "t1" "A" (some "2024-01-02"),
          Task.mk "t2" "A" (some "2024-01-03")] "2024-01-02") ∧
    (Task.mk "t2" "A" (some "2024-01-03") ∉
        overdueTasks [Task.mk "t1" "A" (some "2024-01-02"),
          Task.mk "t2" "A" (some "2024-01-03")] "2024-01-02") := by
  refine ⟨?_, ?_⟩
  · exact (overdue_set_exact _ "2024-01-02" (by decide) _).mpr (by decide)
  · intro hmem
    have h := (overdue_set_exact
      [Task.mk "t1" "A" (some "2024-01-02"), Task.mk "t2" "A" (some "2024-01-03")]
      "2024-01-02" (by decide) (Task.mk "t2" "A" (some "2024-01-03"))).mp hmem
    revert h
    decide

theorem findRule_eq_some_of_split (pre : List AutomationRule) (r : AutomationRule)
    (post : List AutomationRule) (colId : String)
    (hsrc : r.source_column_id = colId)
    (hpre : ∀ r2 ∈ pre, r2.source_column_id ≠ colId) :
    findRule (pre ++ r :: post) colId = some r := by
  unfold findRule
  rw [List.find?_append]
  have h1 : List.find? (fun r2 => r2.source_column_id == colId) pre = none := by
    rw [List.find?_eq_none]
    intro x hx
    simpa using hpre x hx
  rw [h1, List.find?_cons_of_pos]
  · rfl
  · simpa using hsrc

/-- C2: every due task is paired with the target column of the first rule (in
load order) whose source column equals the task's current column, and a due
task matching no rule contributes no entry to the move list (task ids are
pairwise distinct, as they are database primary keys). -/
theorem rule_match_first_or_untouched (tasks : List Task) (rules : List AutomationRule)
    (today : String) (t : Task) (hmem : t ∈ overdueTasks tasks today)
    (hids : (tasks.map Task.id).Nodup) :
    (∀ pre r post, rules = pre ++ r :: post →
        r.source_column_id = t.column_id →
        (∀ r2 ∈ pre, r2.source_column_id ≠ t.column_id) →
        (t.id, r.target_column_id) ∈ tasksToMove tasks rules today) ∧
    ((∀ r ∈ rules, r.source_column_id ≠ t.column_id) →
        ∀ p ∈ tasksToMove tasks rules today, p.1 ≠ t.id) := by
  constructor
  · intro pre r post hrules hsrc hpre
    have hfind : findRule rules t.column_id = some r := by
      rw [hrules]
      exact findRule_eq_some_of_split pre r post t.column_id hsrc hpre
    exact List.mem_filterMap.mpr ⟨t, hmem, by simp [hfind]⟩
  · intro hnone p hp
    intro heq
    obtain ⟨a, ha, hfa⟩ := List.mem_filterMap.mp hp
    cases hfr : findRule rules a.column_id with
    | none => rw [hfr] at hfa; simp at hfa
    | some r =>
        rw [hfr] at hfa
        simp only [Option.map_some'] at hfa
        have hp1 : p.1 = a.id := by rw [← Option.some.inj hfa]
        have hamem : a ∈ tasks := (List.mem_filter.mp ha).1
        have htmem : t ∈ tasks := (List.mem_filter.mp hmem).1
        have hat : a = t := by
          refine List.inj_on_of_nodup_map hids hamem htmem ?_
          rw [← hp1, heq]
        have hrmem : r ∈ rules := List.mem_of_find?_eq_some hfr
        have hpred : r.source_column_id = a.column_id := by
          simpa using List.find?_some hfr
        exact hnone r hrmem (by rw [hpred, hat])

/-- C2 witness: one overdue task in column A and a single rule A to B produce
the move pair for that rule, at concrete inputs. -/
theorem rule_match_first_or_untouched_witness :
    ("t1", "B") ∈ tasksToMove [Task.mk "t1" "A" (some "2024-01-01")]
      [AutomationRule.mk "r1" "A" "B" true] "2024-01-02" := by
  exact (rule_match_first_or_untouched
      [Task.mk "t1" "A" (some "2024-01-01")]
      [AutomationRule.mk "r1" "A" "B" true] "2024-01-02"
      (Task.mk "t1" "A" (some "2024-01-01")) (by decide) (by decide)).1
    [] (AutomationRule.mk "r1" "A" "B" true) [] rfl rfl (by decide)

theorem map_fst_filterMap_sublist {α β γ : Type} (l : List α) (f : α → Option β)
    (g : β → γ) (h : α → γ) (hf : ∀ a b, f a = some b → g b = h a) :
    ((l.filterMap f).map g).Sublist (l.map h) := by
  induction l with
  | nil => simp
  | cons a l ih =>
      cases hfa : f a with
      | none =>
          rw [List.filterMap_cons_none hfa, List.map_cons]
          exact (ih).cons (h a)
      | some b =>
          rw [List.filterMap_cons_some hfa, List.map_cons, List.map_cons,
            hf a b hfa]
          exact (ih).cons₂ (h a)

/-- C4: within a single evaluation cycle, for every task list with pairwise
distinct task ids, no task id appears more than once in the Batch Mover's
update list. -/
theorem at_most_one_move_per_task (tasks : List Task) (rules : List AutomationRule)
    (today : String) (hids : (tasks.map Task.id).Nodup) :
    ((tasksToMove tasks rules today).map Prod.fst).Nodup := by
  have h1 : ((tasksToMove tasks rules today).map Prod.fst).Sublist
      ((overdueTasks tasks today).map Task.id) := by
    refine map_fst_filterMap_sublist _ _ _ _ ?_
    intro a b hab
    cases hfr : findRule rules a.column_id with
    | none => rw [hfr] at hab; simp at hab
    | some r =>
        rw [hfr] at hab
        simp only [Option.map_some'] at hab
        rw [← Option.some.inj hab]
  have h2 : ((overdueTasks tasks today).map Task.id).Sublist (tasks.map Task.id) :=
    (List.filter_sublist tasks).map Task.id
  exact List.Nodup.sublist (h1.trans h2) hids

/-- C4 witness: two distinct overdue tasks in the same source column yield a
move list whose task ids are pairwise distinct, at concrete inputs. -/
theorem at_most_one_move_per_task_witness :
    ((tasksToMove
        [Task.mk "t1" "A" (some "2024-01-01"), Task.mk "t2" "A" (some "2024-01-01")]
        [AutomationRule.mk "r1" "A" "B" true] "2024-01-02").map Prod.fst).Nodup :=
  at_most_one_move_per_task
    [Task.mk "t1" "A" (some "2024-01-01"), Task.mk "t2" "A" (some "2024-01-01")]
    [AutomationRule.mk "r1" "A" "B" true] "2024-01-02" (by decide)

/-- C3 counterexample: with the chained rules A to B and B to C (both enabled,
each with distinct source and target, as the rule-creation UI allows), the
task `t1` in column A due `2024-01-01` is moved to B on the first run and is
moved again — to C — on the second run: the second evaluation does not
produce zero moves. -/
theorem repoll_second_run_moves_again :
    tasksToMove [Task.mk "t1" "A" (some "2024-01-01")]
      [AutomationRule.mk "r1" "A" "B" true, AutomationRule.mk "r2" "B" "C" true]
      "2024-01-02" = [("t1", "B")] ∧
    tasksToMove
      (applyMoves [Task.mk "t1" "A" (some "2024-01-01")]
        (tasksToMove [Task.mk "t1" "A" (some "2024-01-01")]
          [AutomationRule.mk "r1" "A" "B" true, AutomationRule.mk "r2" "B" "C" true]
          "2024-01-02"))
      [AutomationRule.mk "r1" "A" "B" true, AutomationRule.mk "r2" "B" "C" true]
      "2024-01-02" = [("t1", "C")] := by
  constructor
  · rfl
  · rfl

/-- C3 amended: when no rule's target column is any rule's source column (no
rule chains), running the evaluation pipeline a second time on the state
produced by applying the first run's moves, with no intervening due-date or
column change, produces zero additional moves. -/
theorem repoll_idempotent_when_no_chains (tasks : List Task)
    (rules : List AutomationRule) (today : String)
    (hdisj : ∀ r ∈ rules, ∀ r2 ∈ rules, r.target_column_id ≠ r2.source_column_id) :
    tasksToMove (applyMoves tasks (tasksToMove tasks rules today)) rules today = [] := by
  apply List.filterMap_eq_nil_iff.mpr
  intro t2 ht2
  have ht2mem : t2 ∈ applyMoves tasks (tasksToMove tasks rules today) :=
    (List.mem_filter.mp ht2).1
  have ht2ov : isOverdue today t2 = true := (List.mem_filter.mp ht2).2
  obtain ⟨t, htmem, himg⟩ := List.mem_map.mp ht2mem
  suffices h : findRule rules t2.column_id = none by simp [h]
  cases hfind : (tasksToMove tasks rules today).find? (fun p => p.1 == t.id) with
  | some p =>
      have hrow : t2 = { t with column_id := p.2 } := by
        rw [← himg]
        unfold moveRow
        rw [hfind]
      have hpmem : p ∈ tasksToMove tasks rules today := List.mem_of_find?_eq_some hfind
      obtain ⟨a, hamem, hfa⟩ := List.mem_filterMap.mp hpmem
      cases hfr : findRule rules a.column_id with
      | none => rw [hfr] at hfa; simp at hfa
      | some r =>
          rw [hfr] at hfa
          simp only [Option.map_some'] at hfa
          have hp2 : p.2 = r.target_column_id := by rw [← Option.some.inj hfa]
          have hrmem : r ∈ rules := List.mem_of_find?_eq_some hfr
          unfold findRule
          rw [List.find?_eq_none]
          intro r2 hr2 hpred
          have hsrc : r2.source_column_id = t2.column_id := by simpa using hpred
          have hcol : t2.column_id = r.target_column_id := by rw [hrow, hp2]
          exact hdisj r hrmem r2 hr2 (by rw [hcol] at hsrc; exact hsrc.symm)
  | none =>
      have hrow : t2 = t := by
        rw [← himg]
        unfold moveRow
        rw [hfind]
      have hovmem : t ∈ overdueTasks tasks today := by
        refine List.mem_filter.mpr ⟨htmem, ?_⟩
        rw [← hrow]
        exact ht2ov
      rw [hrow]
      cases hfr : findRule rules t.column_id with
      | none => rfl
      | some r =>
          exfalso
          have hpmem : (t.id, r.target_column_id) ∈ tasksToMove tasks rules today :=
            List.mem_filterMap.mpr ⟨t, hovmem, by simp [hfr]⟩
          have hnone := List.find?_eq_none.mp hfind (t.id, r.target_column_id) hpmem
          simp at hnone

/-- C3 amended witness: a single rule A to B (its target is no rule's source)
moves the overdue task once; the second evaluation produces zero moves, at
concrete inputs. -/
theorem repoll_idempotent_when_no_chains_witness :
    tasksToMove
      (applyMoves [Task.mk "t1" "A" (some "2024-01-01")]
        (tasksToMove [Task.mk "t1" "A" (some "2024-01-01")]
          [AutomationRule.mk "r1" "A" "B" true] "2024-01-02"))
      [AutomationRule.mk "r1" "A" "B" true] "2024-01-02" = [] :=
  repoll_idempotent_when_no_chains [Task.mk "t1" "A" (some "2024-01-01")]
    [AutomationRule.mk "r1" "A" "B" true] "2024-01-02" (by decide)

theorem updateTaskColumn_sets (d : List DbTask) (tid c : String) :
    ∀ t ∈ updateTaskColumn d tid c, t.id = tid → t.column_id = c := by
  intro t ht hid
  obtain ⟨s, hs, hst⟩ := List.mem_map.mp ht
  by_cases h : (s.id == tid) = true
  · rw [if_pos h] at hst
    rw [← hst]
  · rw [if_neg h] at hst
    exact absurd (by simp [hst, hid]) h

theorem updateTaskColumn_keeps (d : List DbTask) (tid c id0 c0 : String)
    (hne : tid ≠ id0) (hP : ∀ t ∈ d, t.id = id0 → t.column_id = c0) :
    ∀ t ∈ updateTaskColumn d tid c, t.id = id0 → t.column_id = c0 := by
  intro t ht hid
  obtain ⟨s, hs, hst⟩ := List.mem_map.mp ht
  by_cases h : (s.id == tid) = true
  · rw [if_pos h] at hst
    exfalso
    have hsid : s.id = tid := by simpa using h
    rw [← hst] at hid
    exact hne (by rw [← hsid]; exact hid)
  · rw [if_neg h] at hst
    rw [← hst] at hid ⊢
    exact hP s hs hid

theorem batch_fold_keeps (l : List ((String × String) × Bool)) (id0 c0 : String)
    (hl : ∀ p ∈ l, p.1.1 ≠ id0) :
    ∀ db, (∀ t ∈ db, t.id = id0 → t.column_id = c0) →
      ∀ t ∈ l.foldl (fun d p => if p.2 then updateTaskColumn d p.1.1 p.1.2 else d) db,
        t.id = id0 → t.column_id = c0 := by
  induction l with
  | nil => intro db h; simpa using h
  | cons x xs ih =>
      intro db h
      rw [List.foldl_cons]
      refine ih (fun p hp => hl p (List.mem_cons_of_mem x hp)) _ ?_
      by_cases hx : x.2 = true
      · rw [if_pos hx]
        exact updateTaskColumn_keeps db x.1.1 x.1.2 id0 c0 (hl x (List.mem_cons_self x xs)) h
      · rw [if_neg hx]
        exact h

theorem batch_fold_commits (m : (String × String) × Bool) (hok : m.2 = true) :
    ∀ l : List ((String × String) × Bool), (l.map (fun p => p.1.1)).Nodup → m ∈ l →
      ∀ db, ∀ t ∈ l.foldl (fun d p => if p.2 then updateTaskColumn d p.1.1 p.1.2 else d) db,
        t.id = m.1.1 → t.column_id = m.1.2 := by
  intro l
  induction l with
  | nil => intro _ hm; cases hm
  | cons x xs ih =>
      intro hnd hm db t ht hid
      rw [List.foldl_cons] at ht
      rcases List.mem_cons.mp hm with hmx | hmxs
      · subst hmx
        rw [if_pos hok] at ht
        have hxs : ∀ p ∈ xs, p.1.1 ≠ m.1.1 := by
          intro p hp heq
          have hnotin := (List.nodup_cons.mp hnd).1
          refine hnotin ?_
          show m.1.1 ∈ List.map (fun p => p.1.1) xs
          rw [← heq]
          exact List.mem_map_of_mem (fun q => q.1.1) hp
        exact batch_fold_keeps xs m.1.1 m.1.2 hxs _
          (updateTaskColumn_sets db m.1.1 m.1.2) t ht hid
      · exact ih (List.nodup_cons.mp hnd).2 hmxs _ t ht hid

/-- C5: for a non-empty batch with positional update outcomes `oks` (and
distinct task ids in the move list, as C4 guarantees): when every update
succeeds exactly one aggregated success toast is surfaced and the reload
callback fires; when at least one update fails no toast is surfaced and no
reload fires; in every case each succeeded update remains committed in the
task table — the Batch Mover performs no rollback. -/
theorem batch_mover_outcome (db : List DbTask) (moves : List (String × String))
    (oks : List Bool) (hlen : oks.length = moves.length) (hne : moves ≠ [])
    (hnd : (moves.map Prod.fst).Nodup) :
    ((∀ b ∈ oks, b = true) →
        (batchMove db moves oks).successToasts = 1 ∧
          (batchMove db moves oks).reloadFired = true) ∧
    ((∃ b ∈ oks, b = false) →
        (batchMove db moves oks).successToasts = 0 ∧
          (batchMove db moves oks).reloadFired = false) ∧
    (∀ m ∈ moves.zip oks, m.2 = true →
        ∀ t ∈ (batchMove db moves oks).db, t.id = m.1.1 → t.column_id = m.1.2) := by
  have hpos : 0 < moves.length := List.length_pos.mpr hne
  have hdbeq : (batchMove db moves oks).db = applyBatchResults db moves oks := by
    unfold batchMove
    rw [if_pos hpos]
    by_cases hc : (oks.filter (fun b => !b)).length = 0 ∧ 0 < moves.length
    · rw [if_pos hc]
    · rw [if_neg hc]
  have hnd2 : ((moves.zip oks).map (fun p => p.1.1)).Nodup := by
    have hzip : (moves.zip oks).map Prod.fst = moves :=
      List.map_fst_zip moves oks (le_of_eq hlen.symm)
    have hcomp : (moves.zip oks).map (fun p => p.1.1)
        = ((moves.zip oks).map Prod.fst).map Prod.fst := by
      rw [List.map_map]
      rfl
    rw [hcomp, hzip]
    exact hnd
  refine ⟨?_, ?_, ?_⟩
  · intro hall
    have hfil : oks.filter (fun b => !b) = [] := by
      apply List.filter_eq_nil_iff.mpr
      intro b hb
      simp [hall b hb]
    unfold batchMove
    rw [if_pos hpos, if_pos ⟨by rw [hfil]; rfl, hpos⟩]
    exact ⟨rfl, rfl⟩
  · rintro ⟨b, hb, hbf⟩
    have hmem : b ∈ oks.filter (fun x => !x) :=
      List.mem_filter.mpr ⟨hb, by simp [hbf]⟩
    have hnz : (oks.filter (fun x => !x)).length ≠ 0 := by
      intro h0
      rw [List.length_eq_zero] at h0
      rw [h0] at hmem
      cases hmem
    unfold batchMove
    rw [if_pos hpos, if_neg (fun hc => hnz hc.1)]
    exact ⟨rfl, rfl⟩
  · intro m hm hok t ht hid
    rw [hdbeq] at ht
    unfold applyBatchResults at ht
    exact batch_fold_commits m hok (moves.zip oks) hnd2 hm db t ht hid

/-- C5 witness: a one-element batch whose single update succeeds surfaces
exactly one success toast, at concrete inputs. -/
theorem batch_mover_outcome_witness :
    (batchMove [DbTask.mk "t1" "A" (some "2024-01-01") 0 "T"]
        [("t1", "B")] [true]).successToasts = 1 :=
  ((batch_mover_outcome [DbTask.mk "t1" "A" (some "2024-01-01") 0 "T"]
      [("t1", "B")] [true] rfl (by decide) (by decide)).1 (by decide)).1

/-- C9: an automated move writes only `column_id`: the id, due date, position
and title of every row are unchanged by `updateTaskColumn`; and the manual
`moveTask` without a new due date (every call outside the override confirm
exit) leaves every row's due date unchanged as well. -/
theorem automated_move_writes_only_column_id (db : List DbTask)
    (taskId target : String) (pos : Nat) :
    (updateTaskColumn db taskId target).map
        (fun t => (t.id, t.due_date, t.position, t.title))
      = db.map (fun t => (t.id, t.due_date, t.position, t.title)) ∧
    (moveTaskUpdate db taskId target pos none).map
        (fun t => (t.id, t.due_date, t.title))
      = db.map (fun t => (t.id, t.due_date, t.title)) := by
  constructor
  · unfold updateTaskColumn
    rw [List.map_map]
    apply List.map_congr_left
    intro t ht
    by_cases h : (t.id == taskId) = true <;> simp [Function.comp, h]
  · unfold moveTaskUpdate
    rw [List.map_map]
    apply List.map_congr_left
    intro t ht
    by_cases h : (t.id == taskId) = true <;> simp [Function.comp, h, jsTruthyStr]

/-- C6 counterexample: with the single enabled rule A to B and a task in
column A due strictly before today, a manual drag into column B satisfies the
claim's trigger condition (B is the target of an enabled rule sourced from
the task's current column A) but the code does not trigger the Override Flow,
because no loaded rule has `source_column_id` equal to the drop target B. -/
theorem override_trigger_counterexample :
    claimOverrideTrigger [AutomationRule.mk "r1" "A" "B" true] "A"
      (some "2024-01-01") "B" "2024-01-02" = true ∧
    overrideFlowTriggered [AutomationRule.mk "r1" "A" "B" true] "A"
      (some "2024-01-01") "B" "2024-01-02" = false := by
  exact ⟨rfl, rfl⟩

/-- C6 amended: for a manual drag, the Override Flow is triggered exactly
when the task's due date is non-null (and non-empty) and strictly before
today, the drop target is a different column, and some loaded (hence
enabled) rule's `source_column_id` equals the drop target column — the
rule's target column and the task's current column play no role. -/
theorem override_trigger_exact (rules : List AutomationRule)
    (taskColumnId : String) (taskDueDate : Option String)
    (targetColumnId today : String) :
    overrideFlowTriggered rules taskColumnId taskDueDate targetColumnId today = true ↔
      (∃ d, taskDueDate = some d ∧ d ≠ "" ∧ strLt d today = true) ∧
        targetColumnId ≠ taskColumnId ∧
        ∃ r ∈ rules, r.source_column_id = targetColumnId := by
  cases taskDueDate with
  | none => simp [overrideFlowTriggered, jsTruthyStr]
  | some d =>
      by_cases hd : d = ""
      · simp [overrideFlowTriggered, jsTruthyStr, hd]
      · simp only [overrideFlowTriggered, jsTruthyStr, Option.getD_some,
          Bool.and_eq_true, Bool.not_eq_true', beq_eq_false_iff_ne,
          List.any_eq_true, beq_iff_eq, Option.some.injEq]
        constructor
        · rintro ⟨⟨⟨hne1, hne2⟩, ⟨r, hr, hrsrc⟩⟩, hlt⟩
          exact ⟨⟨d, rfl, hd, hlt⟩, hne2, r, hr, hrsrc⟩
        · rintro ⟨⟨d2, hd2, _, hlt⟩, hne2, r, hr, hrsrc⟩
          cases hd2
          exact ⟨⟨⟨by simpa using hd, hne2⟩, ⟨r, hr, hrsrc⟩⟩, hlt⟩

/-- C7: for every intercepted pending move, every override exit clears the
Pending Move state; the cancel exit leaves the task table — in particular
every task's `column_id` and `due_date` — unchanged; the confirm exit with a
chosen (non-empty) date commits the move with `due_date` set to that date and
leaves every other row untouched; the spec-modelled skip exit commits the
move with the due date left unchanged.  One invocation resolves through
exactly one `OverrideExit`, so the three exits are mutually exclusive. -/
theorem override_exit_resolution (s : UIState) (pm : PendingMove)
    (hpm : s.pendingMove = some pm) (d : String) (hd : d ≠ "") :
    (∀ ex, (resolveOverride s ex).pendingMove = none) ∧
    (resolveOverride s OverrideExit.cancel).db = s.db ∧
    (∀ t ∈ s.db, t.id = pm.taskId →
        { t with
            column_id := pm.targetColumnId
            position := pm.targetPosition
            due_date := some d } ∈ (resolveOverride s (OverrideExit.confirm d)).db) ∧
    (∀ t ∈ s.db, t.id ≠ pm.taskId →
        t ∈ (resolveOverride s (OverrideExit.confirm d)).db) ∧
    (∀ t ∈ s.db, t.id = pm.taskId →
        { t with column_id := pm.targetColumnId, position := pm.targetPosition }
          ∈ (resolveOverride s OverrideExit.skip).db) := by
  obtain ⟨db0, pmo, dlg⟩ := s
  simp only [UIState.pendingMove] at hpm
  subst hpm
  refine ⟨?_, rfl, ?_, ?_, ?_⟩
  · intro ex
    cases ex with
    | confirm d2 => rfl
    | skip => rfl
    | cancel => rfl
  · intro t ht hid
    show _ ∈ moveTaskUpdate db0 pm.taskId pm.targetColumnId pm.targetPosition (some d)
    unfold moveTaskUpdate
    refine List.mem_map.mpr ⟨t, ht, ?_⟩
    rw [if_pos (by simp [hid]), if_pos (by simp [jsTruthyStr, hd])]
  · intro t ht hid
    show _ ∈ moveTaskUpdate db0 pm.taskId pm.targetColumnId pm.targetPosition (some d)
    unfold moveTaskUpdate
    refine List.mem_map.mpr ⟨t, ht, ?_⟩
    rw [if_neg (by simp [hid])]
  · intro t ht hid
    show _ ∈ moveTaskUpdate db0 pm.taskId pm.targetColumnId pm.targetPosition none
    unfold moveTaskUpdate
    refine List.mem_map.mpr ⟨t, ht, ?_⟩
    rw [if_pos (by simp [hid]), if_neg (by simp [jsTruthyStr])]

/-- C7 witness: on a concrete one-task state with a pending move, the cancel
exit leaves the task table unchanged. -/
theorem override_exit_resolution_witness :
    (resolveOverride
        ⟨[DbTask.mk "t1" "A" (some "2024-01-01") 0 "T"],
          some (PendingMove.mk "t1" "B" 1), true⟩
        OverrideExit.cancel).db
      = [DbTask.mk "t1" "A" (some "2024-01-01") 0 "T"] :=
  (override_exit_resolution
    ⟨[DbTask.mk "t1" "A" (some "2024-01-01") 0 "T"],
      some (PendingMove.mk "t1" "B" 1), true⟩
    (PendingMove.mk "t1" "B" 1) rfl "2024-01-05" (by decide)).2.1

theorem markSent_sets (tasks : List NotifTask) (tid : String) :
    ∀ t ∈ markSent tasks tid, t.id = tid → t.notification_sent = true := by
  intro t ht hid
  obtain ⟨s, hs, hst⟩ := List.mem_map.mp ht
  by_cases h : (s.id == tid) = true
  · rw [if_pos h] at hst
    rw [← hst]
  · rw [if_neg h] at hst
    exact absurd (by simp [hst, hid]) h

theorem markSent_keeps (tasks : List NotifTask) (tid id0 : String)
    (hP : ∀ t ∈ tasks, t.id = id0 → t.notification_sent = true) :
    ∀ t ∈ markSent tasks tid, t.id = id0 → t.notification_sent = true := by
  intro t ht hid
  obtain ⟨s, hs, hst⟩ := List.mem_map.mp ht
  by_cases h : (s.id == tid) = true
  · rw [if_pos h] at hst
    rw [← hst]
  · rw [if_neg h] at hst
    rw [← hst] at hid ⊢
    exact hP s hs hid

theorem dispatch_fold_keeps (db : NotifDB) (post : String → Bool)
    (l : List NotifTask) (id0 : String) :
    ∀ acc : List NotifTask × Nat,
      (∀ t ∈ acc.1, t.id = id0 → t.notification_sent = true) →
      ∀ t ∈ (l.foldl (dispatchStep db post) acc).1,
        t.id = id0 → t.notification_sent = true := by
  induction l with
  | nil => intro acc h; simpa using h
  | cons x xs ih =>
      intro acc h
      rw [List.foldl_cons]
      refine ih _ ?_
      unfold dispatchStep
      by_cases h1 : (!(jsTruthyStr (webhookFor db x))) = true
      · rw [if_pos h1]
        exact markSent_keeps acc.1 x.id id0 h
      · rw [if_neg h1]
        by_cases h2 : post x.id = true
        · rw [if_pos h2]
          exact markSent_keeps acc.1 x.id id0 h
        · rw [if_neg h2]
          exact h

/-- C8 counterexample: the single queried task entered the invocation with
`notification_sent = false` and an elapsed `notification_at`, its owner has a
webhook URL configured, and the POST threw — after the invocation the task is
still unmarked (the mark-sent update sits inside the `try` block after
`fetch`), contradicting the claim that every such task ends marked whatever
the result of the attempt. -/
theorem notification_unmarked_when_post_throws :
    notifDue notifExampleDB "2024-01-02T00:00:00Z" = notifExampleDB.tasks ∧
    jsTruthyStr (webhookFor notifExampleDB
      (NotifTask.mk "t1" "T" none none (some "2024-01-01T00:00:00Z") false "c1")) = true ∧
    (runDispatcher notifExampleDB "2024-01-02T00:00:00Z" (fun _ => false)).1
      = [NotifTask.mk "t1" "T" none none (some "2024-01-01T00:00:00Z") false "c1"] := by
  exact ⟨rfl, rfl, rfl⟩

/-- C8 amended: after one dispatcher invocation, every queried task (entering
with `notification_sent = false` and `notification_at` at or before now)
whose owner has no truthy webhook URL, or whose webhook POST resolved
(whatever its HTTP status), has `notification_sent = true`; a task whose POST
threw is left unmarked and retried on a later invocation. -/
theorem dispatcher_marks_handled (db : NotifDB) (now : String)
    (post : String → Bool) (t : NotifTask) (hmem : t ∈ notifDue db now)
    (hhandled : jsTruthyStr (webhookFor db t) = false ∨ post t.id = true) :
    ∀ x ∈ (runDispatcher db now post).1, x.id = t.id →
      x.notification_sent = true := by
  obtain ⟨l1, l2, hsplit⟩ := List.append_of_mem hmem
  unfold runDispatcher
  rw [hsplit, List.foldl_append, List.foldl_cons]
  refine dispatch_fold_keeps db post l2 t.id _ ?_
  unfold dispatchStep
  rcases hhandled with hfalsy | hpost
  · rw [if_pos (by simp [hfalsy])]
    exact markSent_sets _ t.id
  · by_cases h1 : (!(jsTruthyStr (webhookFor db t))) = true
    · rw [if_pos h1]
      exact markSent_sets _ t.id
    · rw [if_neg h1, if_pos hpost]
      exact markSent_sets _ t.id

/-- C8 amended witness: in the store whose owner has no webhook URL, the
queried task ends the invocation marked sent, at concrete inputs. -/
theorem dispatcher_marks_handled_witness :
    ((runDispatcher notifExampleDBNoUrl "2024-01-02T00:00:00Z"
        (fun _ => false)).1.headD
      (NotifTask.mk "x" "x" none none none false "x")).notification_sent = true := by
  refine dispatcher_marks_handled notifExampleDBNoUrl "2024-01-02T00:00:00Z"
    (fun _ => false)
    (NotifTask.mk "t1" "T" none none (some "2024-01-01T00:00:00Z") false "c1")
    (by decide) (Or.inl (by decide)) _ ?_ ?_
  · decide
  · decide

theorem dispatch_fold_count (db : NotifDB) (post : String → Bool) :
    ∀ (l : List NotifTask) (acc : List NotifTask × Nat),
      (l.foldl (dispatchStep db post) acc).2
        = acc.2 + (l.filter
            (fun t => jsTruthyStr (webhookFor db t) && post t.id)).length := by
  intro l
  induction l with
  | nil => intro acc; simp
  | cons x xs ih =>
      intro acc
      rw [List.foldl_cons]
      by_cases h1 : jsTruthyStr (webhookFor db x) = true
      · by_cases h2 : post x.id = true
        · rw [List.filter_cons_of_pos (by simp [h1, h2])]
          have hstep : dispatchStep db post acc x = (markSent acc.1 x.id, acc.2 + 1) := by
            unfold dispatchStep
            rw [if_neg (by simp [h1]), if_pos h2]
          rw [hstep, ih]
          simp only [List.length_cons]
          omega
        · rw [List.filter_cons_of_neg (by simp [h1, h2])]
          have hstep : dispatchStep db post acc x = acc := by
            unfold dispatchStep
            rw [if_neg (by simp [h1]), if_neg h2]
          rw [hstep, ih]
      · rw [List.filter_cons_of_neg (by simp [h1])]
        have hstep : dispatchStep db post acc x = (markSent acc.1 x.id, acc.2) := by
          unfold dispatchStep
          rw [if_pos (by simp [h1])]
        rw [hstep, ih]

/-- C10: the `sentCount` reported by one dispatcher invocation counts exactly
the queried tasks whose owner has a truthy webhook URL and whose POST
resolved without throwing; tasks marked sent for lack of a webhook URL and
tasks whose POST threw are not counted. -/
theorem sent_count_exact (db : NotifDB) (now : String) (post : String → Bool) :
    (runDispatcher db now post).2
      = ((notifDue db now).filter
          (fun t => jsTruthyStr (webhookFor db t) && post t.id)).length := by
  unfold runDispatcher
  rw [dispatch_fold_count db post (notifDue db now) (db.tasks, 0)]
  simp

end VTQ
